import Mathlib

/-
Verification of the differentiable addressable memory controller
(`EnhancedDNCController` in src/archive/hrm-dnc-web-integration.py).

The controller state is embedded as a record of real-valued vectors and
matrices over `Fin`-indexed functions; Python floats are modelled as real
numbers, and `F.normalize` (which divides by `max(norm, eps)`) is modelled
exactly on its two regimes: zero vectors map to zero, nonzero vectors are
divided by their norm.  `torch.sort` on the usage vector followed by
`indices[0]` is modelled as the least index attaining the minimum value
(stable tie order).  All operations are total functions from states to
states, mirroring the single-threaded mutation of the Python object.
-/

namespace CloveDNC

noncomputable section

/-- State of `EnhancedDNCController` (constructor lines 204-228): memory
bank, usage vector, precedence vector, temporal link matrix, URL index,
confidence scores, and the two statistics counters.  `n` is
`memory_size`, `d` is `memory_dim`. -/
structure DNCState (n d : ℕ) where
  memory : Fin n → Fin d → ℝ
  usage : Fin n → ℝ
  precedence : Fin n → ℝ
  temporal_links : Fin n → Fin n → ℝ
  url_index : String → Option (Fin n)
  confidence_scores : Fin n → ℝ
  total_writes : ℕ
  total_reads : ℕ

/-- The freshly constructed controller: every tensor is zero-initialised,
the URL index is empty and both counters are zero. -/
def initState (n d : ℕ) : DNCState n d where
  memory := fun _ _ => 0
  usage := fun _ => 0
  precedence := fun _ => 0
  temporal_links := fun _ _ => 0
  url_index := fun _ => none
  confidence_scores := fun _ => 0
  total_writes := 0
  total_reads := 0

/-- `F.normalize(v, dim=-1)`: `v / max(norm2(v), eps)`.  A zero vector maps
to zero; a nonzero vector is divided by its L2 norm. -/
def l2normalize {d : ℕ} (v : Fin d → ℝ) : Fin d → ℝ :=
  fun i => if (∑ j, v j ^ 2) = 0 then v i else v i / Real.sqrt (∑ j, v j ^ 2)

/-- `F.softmax(x, dim=0)` over a length-`n` vector. -/
def softmax {n : ℕ} (x : Fin n → ℝ) : Fin n → ℝ :=
  fun i => Real.exp (x i) / ∑ j, Real.exp (x j)

/-- `content_addressing` (lines 230-244): normalise the key and every
memory row, take cosine similarities, then softmax with temperature
`beta`. -/
def content_addressing {n d : ℕ} (s : DNCState n d) (key : Fin d → ℝ) (beta : ℝ) :
    Fin n → ℝ :=
  softmax fun i => beta * ∑ j, l2normalize (s.memory i) j * l2normalize key j

/-- `torch.sort(self.usage)` followed by `indices[0]`.  The code's
default `stable=False` leaves the order of equal elements unspecified, so
the source promises only some index of minimum usage (captured by
`MinUsageIdx` below); this operational model resolves that free choice
deterministically to the least index attaining the minimum.  Which
properties depend on this resolution and which hold under any minimum
selection is tracked per claim. -/
def argminIdx : {m : ℕ} → (Fin (m + 1) → ℝ) → Fin (m + 1)
  | 0, _ => 0
  | _ + 1, u =>
    if u 0 ≤ u (argminIdx fun i => u i.succ).succ then 0
    else (argminIdx fun i => u i.succ).succ

/-- `allocate_memory` (lines 246-261): pick the least-used slot and set its
usage to `1.0` (line 259 mutates `self.usage` inside this method); the
one-hot `allocation` tensor built by the source is discarded and is not
modelled.  Returns the allocated index together with the updated state. -/
def allocate_memory {n d : ℕ} (s : DNCState (n + 1) d) :
    Fin (n + 1) × DNCState (n + 1) d :=
  (argminIdx s.usage, { s with usage := Function.update s.usage (argminIdx s.usage) 1 })

/-- `write` (lines 263-291): allocate a slot, compute write weights from the
pre-write memory, store the vector and confidence, optionally update the
URL index (Python treats an empty string as falsy), set the temporal link
`(write_idx - 1) % memory_size → write_idx` when at least one write has
happened, blend the precedence vector, and bump `total_writes`. -/
def write {n d : ℕ} (s : DNCState (n + 1) d) (write_vector write_key : Fin d → ℝ)
    (url : Option String) (confidence : ℝ) : Fin (n + 1) × DNCState (n + 1) d :=
  let write_idx := (allocate_memory s).1
  let s1 := (allocate_memory s).2
  let write_weights := content_addressing s1 write_key 1
  (write_idx,
    { memory := Function.update s1.memory write_idx write_vector
      usage := s1.usage
      precedence := fun i => (1 - write_weights i) * s1.precedence i + write_weights i
      temporal_links := fun i j =>
        if 0 < s1.total_writes ∧ i = write_idx - 1 ∧ j = write_idx then 1
        else s1.temporal_links i j
      url_index := fun k =>
        match url with
        | some u => if u ≠ "" ∧ k = u then some write_idx else s1.url_index k
        | none => s1.url_index k
      confidence_scores := Function.update s1.confidence_scores write_idx confidence
      total_writes := s1.total_writes + 1
      total_reads := s1.total_reads })

/-- `F.normalize(v, p=1, dim=0)`: divide by the L1 norm unless it is zero. -/
def l1normalize {n : ℕ} (v : Fin n → ℝ) : Fin n → ℝ :=
  fun i => if (∑ j, |v j|) = 0 then v i else v i / ∑ j, |v j|

/-- `read` (lines 293-315): content weights at `beta = 2.0`, optional
temporal combination `0.5 w + 0.25 (w · L) + 0.25 (w · Lᵀ)` renormalised in
L1, then the weighted sum of memory rows; `total_reads` is incremented. -/
def read {n d : ℕ} (s : DNCState n d) (read_key : Fin d → ℝ) (temporal : Bool) :
    (Fin d → ℝ) × DNCState n d :=
  let read_weights := content_addressing s read_key 2
  let combined :=
    if temporal = true ∧ 0 < s.total_writes then
      l1normalize fun i =>
        0.5 * read_weights i
          + 0.25 * (∑ j, read_weights j * s.temporal_links j i)
          + 0.25 * (∑ j, read_weights j * s.temporal_links i j)
    else read_weights
  (fun jd => ∑ i, combined i * s.memory i jd,
    { s with total_reads := s.total_reads + 1 })

/-- `get_memory_stats` (lines 317-327): usage mean and (sample) standard
deviation, the two counters, and the mean confidence over slots with
positive confidence, defined as `0` when no such slot exists.  The
function reads the state and builds a fresh tuple; it mutates nothing. -/
def get_memory_stats {n d : ℕ} (s : DNCState n d) : ℝ × ℝ × ℕ × ℕ × ℝ :=
  ((∑ i, s.usage i) / (n : ℝ),
    Real.sqrt ((∑ i, (s.usage i - (∑ j, s.usage j) / (n : ℝ)) ^ 2) / ((n : ℝ) - 1)),
    s.total_writes,
    s.total_reads,
    if (Finset.univ.filter fun i => 0 < s.confidence_scores i).Nonempty then
      (∑ i in Finset.univ.filter fun i => 0 < s.confidence_scores i, s.confidence_scores i)
        / ((Finset.univ.filter fun i => 0 < s.confidence_scores i).card : ℝ)
    else 0)

/-- The states reachable from a freshly constructed controller by any
sequence of `write` and `read` calls (`get_memory_stats` is a pure
observer and induces no transition). -/
inductive Reachable {n d : ℕ} : DNCState (n + 1) d → Prop where
  | init : Reachable (initState (n + 1) d)
  | write_step (s : DNCState (n + 1) d) (v k : Fin d → ℝ) (url : Option String) (c : ℝ)
      (h : Reachable s) : Reachable (write s v k url c).2
  | read_step (s : DNCState (n + 1) d) (q : Fin d → ℝ) (t : Bool)
      (h : Reachable s) : Reachable (read s q t).2

/-- The state after `k` consecutive writes from a fresh controller, with
the `k`-th write taking vector `vs k`, key `ks k`, URL `us k` and
confidence `cs k`. -/
def writeTrace (n d : ℕ) (vs ks : ℕ → Fin d → ℝ) (us : ℕ → Option String)
    (cs : ℕ → ℝ) : ℕ → DNCState (n + 1) d
  | 0 => initState (n + 1) d
  | k + 1 => (write (writeTrace n d vs ks us cs k) (vs k) (ks k) (us k) (cs k)).2

/-- The usage vector determined by the write counter: slots below the
counter hold `1.0`, the rest hold `0.0`. -/
def indicatorUsage (N k : ℕ) : Fin N → ℝ :=
  fun i => if i.val < k then 1 else 0

/-- The temporal link matrix after `k` writes on a bank of `N` slots: the
chain edges `(i, i+1)` laid down by the first `min k N` writes, plus the
wrap-around edge `(N-1, 0)` once the bank has been exhausted. -/
def linkFun (N k : ℕ) : Fin N → Fin N → ℝ :=
  fun i j =>
    if (j.val = i.val + 1 ∧ j.val + 1 ≤ k) ∨
        (N + 1 ≤ k ∧ i.val = N - 1 ∧ j.val = 0) then 1 else 0

/-- The full guarantee of `torch.sort(self.usage)` followed by
`indices[0]` on the code's side: the returned position holds a minimum of
the usage vector.  With the default `stable=False` the order of equal
elements is unspecified, so nothing beyond membership in the set of
minima is promised. -/
def MinUsageIdx {N : ℕ} (u : Fin N → ℝ) (i : Fin N) : Prop :=
  ∀ j, u i ≤ u j

/-- Constant write vector used in concrete traces. -/
def tv : ℕ → Fin 1 → ℝ := fun _ _ => 1

/-- Constant (absent) URL used in concrete traces. -/
def tu : ℕ → Option String := fun _ => none

/-- Constant confidence used in concrete traces. -/
def tc : ℕ → ℝ := fun _ => 1

/-- A concrete 3-slot controller state whose temporal link matrix has a
single edge `1 → 0`, whose usage marks slots 0 and 1 as used, and which
records two past writes.  Every row of its link matrix has at most one
nonzero entry. -/
def sC1 : DNCState 3 1 where
  memory := fun _ _ => 0
  usage := indicatorUsage 3 2
  precedence := fun _ => 0
  temporal_links := fun i j => if i.val = 1 ∧ j.val = 0 then 1 else 0
  url_index := fun _ => none
  confidence_scores := fun _ => 0
  total_writes := 2
  total_reads := 0

/-! Projection lemmas: how each `write`/`read` reads back on the state
record.  Each is definitional. -/

theorem write_fst {n d : ℕ} (s : DNCState (n + 1) d) (v k : Fin d → ℝ)
    (url : Option String) (c : ℝ) :
    (write s v k url c).1 = argminIdx s.usage := rfl

theorem write_usage {n d : ℕ} (s : DNCState (n + 1) d) (v k : Fin d → ℝ)
    (url : Option String) (c : ℝ) :
    (write s v k url c).2.usage = Function.update s.usage (argminIdx s.usage) 1 := rfl

theorem write_total_writes {n d : ℕ} (s : DNCState (n + 1) d) (v k : Fin d → ℝ)
    (url : Option String) (c : ℝ) :
    (write s v k url c).2.total_writes = s.total_writes + 1 := rfl

theorem write_links {n d : ℕ} (s : DNCState (n + 1) d) (v k : Fin d → ℝ)
    (url : Option String) (c : ℝ) :
    (write s v k url c).2.temporal_links = fun i j =>
      if 0 < s.total_writes ∧ i = argminIdx s.usage - 1 ∧ j = argminIdx s.usage then 1
      else s.temporal_links i j := rfl

theorem write_precedence {n d : ℕ} (s : DNCState (n + 1) d) (v k : Fin d → ℝ)
    (url : Option String) (c : ℝ) :
    (write s v k url c).2.precedence = fun i =>
      (1 - content_addressing s k 1 i) * s.precedence i + content_addressing s k 1 i := rfl

theorem write_confidence {n d : ℕ} (s : DNCState (n + 1) d) (v k : Fin d → ℝ)
    (url : Option String) (c : ℝ) :
    (write s v k url c).2.confidence_scores
      = Function.update s.confidence_scores (argminIdx s.usage) c := rfl

theorem write_memory {n d : ℕ} (s : DNCState (n + 1) d) (v k : Fin d → ℝ)
    (url : Option String) (c : ℝ) :
    (write s v k url c).2.memory = Function.update s.memory (argminIdx s.usage) v := rfl

theorem read_snd {n d : ℕ} (s : DNCState n d) (q : Fin d → ℝ) (t : Bool) :
    (read s q t).2 = { s with total_reads := s.total_reads + 1 } := rfl

/-! Properties of `argminIdx`: it attains the minimum, and it is the least
index doing so. -/

theorem argminIdx_le : ∀ {m : ℕ} (u : Fin (m + 1) → ℝ) (j : Fin (m + 1)),
    u (argminIdx u) ≤ u j := by
  intro m
  induction m with
  | zero =>
    intro u j
    have hj : j = 0 := Fin.ext (by omega)
    subst hj
    exact le_rfl
  | succ m ih =>
    intro u j
    simp only [argminIdx]
    split_ifs with h
    · rcases Fin.eq_zero_or_eq_succ j with rfl | ⟨i, rfl⟩
      · exact le_rfl
      · exact h.trans (ih (fun i => u i.succ) i)
    · rcases Fin.eq_zero_or_eq_succ j with rfl | ⟨i, rfl⟩
      · exact (not_le.mp h).le
      · exact ih (fun i => u i.succ) i

theorem argminIdx_lt : ∀ {m : ℕ} (u : Fin (m + 1) → ℝ) (j : Fin (m + 1)),
    j < argminIdx u → u (argminIdx u) < u j := by
  intro m
  induction m with
  | zero =>
    intro u j hj
    have hj0 : j = 0 := Fin.ext (by omega)
    have ha : argminIdx u = 0 := rfl
    rw [ha, hj0] at hj
    exact absurd hj (lt_irrefl 0)
  | succ m ih =>
    intro u j hj
    simp only [argminIdx] at hj ⊢
    split_ifs at hj ⊢ with h
    · exact absurd hj (Fin.not_lt_zero j)
    · rcases Fin.eq_zero_or_eq_succ j with rfl | ⟨i, rfl⟩
      · exact not_le.mp h
      · exact ih (fun i => u i.succ) i (Fin.succ_lt_succ_iff.mp hj)

theorem argminIdx_eq {m : ℕ} (u : Fin (m + 1) → ℝ) (i0 : Fin (m + 1))
    (hmin : ∀ j, u i0 ≤ u j) (hleast : ∀ j, j < i0 → u i0 < u j) :
    argminIdx u = i0 := by
  rcases lt_trichotomy (argminIdx u) i0 with h | h | h
  · exact absurd (argminIdx_le u i0) (not_le.mpr (hleast _ h))
  · exact h
  · exact absurd (hmin (argminIdx u)) (not_le.mpr (argminIdx_lt u i0 h))

theorem argminIdx_indicator_lt {n k : ℕ} (hk : k < n + 1) :
    argminIdx (indicatorUsage (n + 1) k) = ⟨k, hk⟩ := by
  apply argminIdx_eq
  · intro j
    simp only [indicatorUsage]
    rw [if_neg (lt_irrefl k)]
    split <;> norm_num
  · intro j hj
    have hjk : j.val < k := hj
    simp only [indicatorUsage]
    rw [if_neg (lt_irrefl k), if_pos hjk]
    norm_num

theorem argminIdx_indicator_ge {n k : ℕ} (hk : n + 1 ≤ k) :
    argminIdx (indicatorUsage (n + 1) k) = 0 := by
  apply argminIdx_eq
  · intro j
    have h1 : (0 : Fin (n + 1)).val < k := lt_of_lt_of_le (Nat.succ_pos n) hk
    have h2 : j.val < k := lt_of_lt_of_le j.isLt hk
    simp only [indicatorUsage, h2, if_pos]
    split <;> norm_num
  · intro j hj
    exact absurd hj (Fin.not_lt_zero j)

/-! Softmax facts shared by the addressing proofs. -/

theorem softmax_nonneg {n : ℕ} (x : Fin n → ℝ) (i : Fin n) : 0 ≤ softmax x i :=
  div_nonneg (Real.exp_pos _).le (Finset.sum_nonneg fun _ _ => (Real.exp_pos _).le)

theorem softmax_le_one {n : ℕ} (x : Fin n → ℝ) (i : Fin n) : softmax x i ≤ 1 := by
  have hpos : 0 < ∑ j, Real.exp (x j) :=
    Finset.sum_pos (fun _ _ => Real.exp_pos _) ⟨i, Finset.mem_univ i⟩
  exact div_le_one_of_le₀
    (Finset.single_le_sum (fun j _ => (Real.exp_pos (x j)).le) (Finset.mem_univ i)) hpos.le

theorem softmax_sum_eq_one {n : ℕ} (hn : 0 < n) (x : Fin n → ℝ) :
    ∑ i, softmax x i = 1 := by
  haveI : Nonempty (Fin n) := ⟨⟨0, hn⟩⟩
  have hpos : 0 < ∑ j, Real.exp (x j) :=
    Finset.sum_pos (fun j _ => Real.exp_pos _) Finset.univ_nonempty
  unfold softmax
  rw [← Finset.sum_div, div_self hpos.ne']

theorem content_addressing_nonneg {n d : ℕ} (s : DNCState n d) (key : Fin d → ℝ)
    (b : ℝ) (i : Fin n) : 0 ≤ content_addressing s key b i :=
  softmax_nonneg _ i

theorem content_addressing_le_one {n d : ℕ} (s : DNCState n d) (key : Fin d → ℝ)
    (b : ℝ) (i : Fin n) : content_addressing s key b i ≤ 1 :=
  softmax_le_one _ i

/-! Trace facts. -/

theorem writeTrace_total_writes (n d : ℕ) (vs ks : ℕ → Fin d → ℝ)
    (us : ℕ → Option String) (cs : ℕ → ℝ) :
    ∀ k, (writeTrace n d vs ks us cs k).total_writes = k := by
  intro k
  induction k with
  | zero => rfl
  | succ k ih =>
    show (write (writeTrace n d vs ks us cs k) (vs k) (ks k) (us k) (cs k)).2.total_writes
      = k + 1
    rw [write_total_writes, ih]

theorem writeTrace_reachable (n d : ℕ) (vs ks : ℕ → Fin d → ℝ)
    (us : ℕ → Option String) (cs : ℕ → ℝ) :
    ∀ k, Reachable (writeTrace n d vs ks us cs k) := by
  intro k
  induction k with
  | zero => exact Reachable.init
  | succ k ih => exact Reachable.write_step _ _ _ _ _ ih

/-! The reachable-state characterisation of the usage vector: after `k`
writes exactly the slots below `min k N` hold usage `1.0`, written as the
indicator of `val < total_writes`. -/

theorem reachable_usage_char {n d : ℕ} {s : DNCState (n + 1) d} (h : Reachable s) :
    s.usage = indicatorUsage (n + 1) s.total_writes := by
  induction h with
  | init =>
    funext i
    simp [initState, indicatorUsage]
  | write_step s v k url c h ih =>
    rw [write_usage, write_total_writes, ih]
    rcases Nat.lt_or_ge s.total_writes (n + 1) with hK | hK
    · rw [argminIdx_indicator_lt hK]
      funext i
      rw [Function.update_apply]
      simp only [indicatorUsage, Fin.ext_iff]
      have hiv := i.isLt
      split_ifs <;> first | rfl | omega
    · rw [argminIdx_indicator_ge hK]
      funext i
      rw [Function.update_apply]
      simp only [indicatorUsage, Fin.ext_iff, Fin.val_zero]
      have hiv := i.isLt
      split_ifs <;> first | rfl | omega
  | read_step s q t h ih =>
    exact ih

/-! The reachable-state characterisation of the temporal link matrix. -/

theorem fin_sub_one_val {n : ℕ} (a : Fin (n + 1)) :
    (a - 1).val = if a = 0 then n else a.val - 1 :=
  Fin.coe_sub_one a

theorem reachable_links_char {n d : ℕ} {s : DNCState (n + 1) d} (h : Reachable s) :
    s.temporal_links = linkFun (n + 1) s.total_writes := by
  induction h with
  | init =>
    funext i j
    show (0 : ℝ) = linkFun (n + 1) 0 i j
    unfold linkFun
    rw [if_neg (by rintro (⟨h1, h2⟩ | ⟨h1, h2, h3⟩) <;> omega)]
  | write_step s v k url c h ih =>
    have husage := reachable_usage_char h
    rw [write_links, write_total_writes, ih, husage]
    rcases Nat.eq_zero_or_pos s.total_writes with hK0 | hKpos
    · rw [hK0]
      funext i j
      rw [if_neg (by simp)]
      unfold linkFun
      have hiv := i.isLt
      have hjv := j.isLt
      split_ifs <;> first | rfl | omega
    · rcases Nat.lt_or_ge s.total_writes (n + 1) with hlt | hge
      · rw [argminIdx_indicator_lt hlt]
        have hne : (⟨s.total_writes, hlt⟩ : Fin (n + 1)) ≠ 0 := by
          rw [Fin.ne_iff_vne]
          simpa using hKpos.ne'
        have hsub : ((⟨s.total_writes, hlt⟩ : Fin (n + 1)) - 1).val
            = s.total_writes - 1 := by
          rw [fin_sub_one_val, if_neg hne]
        funext i j
        unfold linkFun
        have hiv := i.isLt
        have hjv := j.isLt
        simp only [Fin.ext_iff, hsub]
        split_ifs <;> first | rfl | omega
      · rw [argminIdx_indicator_ge hge]
        have hsub : ((0 : Fin (n + 1)) - 1).val = n := by
          rw [fin_sub_one_val, if_pos rfl]
        funext i j
        unfold linkFun
        have hiv := i.isLt
        have hjv := j.isLt
        simp only [Fin.ext_iff, hsub, Fin.val_zero]
        split_ifs <;> first | rfl | omega
  | read_step s q t h ih =>
    exact ih

/-- Claim C4: what the allocation code actually guarantees, evaluated at
the failing input.  Every write allocates an index of minimum usage — the
only promise `torch.sort(self.usage)` plus `indices[0]` makes, and one
the model satisfies — but on the all-zero usage vector of a fresh
controller every slot attains that minimum, so the `stable=False` sort
contract leaves the tie among untouched slots unresolved and the claimed
deterministic lowest-index tie-break (and with it the fixed round-robin
order) is not implied by the code. -/
theorem write_allocates_min_usage_only {n d : ℕ} :
    (∀ (s : DNCState (n + 1) d) (v k : Fin d → ℝ) (url : Option String) (c : ℝ),
        MinUsageIdx s.usage ((write s v k url c).1))
  ∧ (∀ i : Fin (n + 1), MinUsageIdx (initState (n + 1) d).usage i) := by
  constructor
  · intro s v k url c
    rw [write_fst]
    exact argminIdx_le s.usage
  · intro i j
    exact le_rfl

/-- Claim C5: on an all-zero query key, `content_addressing` returns the
uniform distribution `1/N` for every bank state (the `F.normalize` eps
clamp maps the zero key to zero, all similarities are zero, and softmax of
a constant vector is uniform); no NaN arises and the operation is total. -/
theorem content_addressing_zero_key_uniform {n d : ℕ} (_hn : 0 < n)
    (s : DNCState n d) (beta : ℝ) :
    content_addressing s (fun _ => 0) beta = fun _ => ((n : ℝ))⁻¹ := by
  have hkey : l2normalize (fun _ : Fin d => (0 : ℝ)) = fun _ => 0 := by
    funext i
    simp [l2normalize]
  have hz : (fun i : Fin n =>
      beta * ∑ j, l2normalize (s.memory i) j * l2normalize (fun _ => (0 : ℝ)) j)
      = fun _ => 0 := by
    funext i
    rw [hkey]
    simp
  unfold content_addressing
  rw [hz]
  funext i
  unfold softmax
  simp [Finset.sum_const, Finset.card_univ, one_div]

/-- Witness for C5: a fresh 2-slot controller queried with the zero key
yields the uniform weight 1/2 on both slots. -/
theorem content_addressing_zero_key_uniform_witness :
    content_addressing (initState 2 1) (fun _ => 0) 1 = fun _ => ((2 : ℕ) : ℝ)⁻¹ :=
  content_addressing_zero_key_uniform (by norm_num) (initState 2 1) 1

/-- Claim C6: for every nonzero query, every bank state and positive
sharpness, the content-addressing weights are entrywise nonnegative and
sum to 1. -/
theorem content_addressing_weight_distribution {n d : ℕ} (s : DNCState n d)
    (key : Fin d → ℝ) (beta : ℝ) (_hkey : key ≠ fun _ => 0) (_hbeta : 0 < beta)
    (hn : 0 < n) :
    (∀ i, 0 ≤ content_addressing s key beta i) ∧
      (∑ i, content_addressing s key beta i) = 1 :=
  ⟨fun i => content_addressing_nonneg s key beta i, softmax_sum_eq_one hn _⟩

/-- Witness for C6 on a fresh 2-slot controller with the nonzero query
`[1]` and sharpness 1. -/
theorem content_addressing_weight_distribution_witness :
    0 ≤ content_addressing (initState 2 1) (fun _ => 1) 1 0 ∧
      (∑ i, content_addressing (initState 2 1) (fun _ => (1 : ℝ)) 1 i) = 1 := by
  have h := content_addressing_weight_distribution (initState 2 1) (fun _ => 1) 1
    (by intro hc; have := congrFun hc 0; norm_num at this) one_pos (by norm_num)
  exact ⟨h.1 0, h.2⟩

/-- Claim C7: the result of a non-temporal read is determined solely by
the stored memory vectors — two states with identical memory give
identical read results no matter how usage, precedence, links, URL index
or the counters differ. -/
theorem read_nontemporal_memory_determined {n d : ℕ} (s1 s2 : DNCState n d)
    (q : Fin d → ℝ) (h : s1.memory = s2.memory) :
    (read s1 q false).1 = (read s2 q false).1 := by
  have hca : content_addressing s1 q 2 = content_addressing s2 q 2 := by
    unfold content_addressing
    rw [h]
  show (fun jd => ∑ i, content_addressing s1 q 2 i * s1.memory i jd)
      = fun jd => ∑ i, content_addressing s2 q 2 i * s2.memory i jd
  rw [hca, h]

/-- Witness for C7: a fresh controller and one with different usage and
counters but the same (zero) memory read identically. -/
theorem read_nontemporal_memory_determined_witness :
    (read (initState 2 1) (fun _ => 1) false).1
      = (read { initState 2 1 with usage := fun _ => 1, total_writes := 3 }
          (fun _ => 1) false).1 :=
  read_nontemporal_memory_determined _ _ _ rfl

/-- Claim C8: in every reachable state every precedence entry lies in
`[0,1]`: it starts at zero and each write blends it with a softmax weight
vector whose entries lie in `[0,1]`. -/
theorem reachable_precedence_bounds {n d : ℕ} {s : DNCState (n + 1) d}
    (h : Reachable s) : ∀ i, 0 ≤ s.precedence i ∧ s.precedence i ≤ 1 := by
  induction h with
  | init =>
    intro i
    constructor <;> simp [initState]
  | write_step s v k url c h ih =>
    intro i
    simp only [write_precedence]
    have h0 := content_addressing_nonneg s k 1 i
    have h1 := content_addressing_le_one s k 1 i
    rcases ih i with ⟨hp0, hp1⟩
    constructor <;> nlinarith
  | read_step s q t h ih =>
    exact ih

/-- Witness for C8 at the initial 1-slot controller. -/
theorem reachable_precedence_bounds_witness :
    0 ≤ (initState 1 1).precedence 0 ∧ (initState 1 1).precedence 0 ≤ 1 :=
  reachable_precedence_bounds Reachable.init 0

/-- Claim C10: in every reachable state every usage entry is exactly 0 or
1; a slot whose usage is 1 keeps it across any write or read; and once the
write counter reaches `N` every slot's usage is 1 (so allocation carries
no recency information beyond tie-breaking). -/
theorem usage_binary_monotone {n d : ℕ} :
    (∀ (s : DNCState (n + 1) d), Reachable s → ∀ i, s.usage i = 0 ∨ s.usage i = 1)
  ∧ (∀ (s : DNCState (n + 1) d) (v k : Fin d → ℝ) (url : Option String) (c : ℝ)
      (i : Fin (n + 1)), s.usage i = 1 → (write s v k url c).2.usage i = 1)
  ∧ (∀ (s : DNCState (n + 1) d) (q : Fin d → ℝ) (t : Bool) (i : Fin (n + 1)),
      (read s q t).2.usage i = s.usage i)
  ∧ (∀ (s : DNCState (n + 1) d), Reachable s → n + 1 ≤ s.total_writes →
      ∀ i, s.usage i = 1) := by
  refine ⟨?_, ?_, ?_, ?_⟩
  · intro s hs i
    rw [reachable_usage_char hs]
    unfold indicatorUsage
    split_ifs
    · exact Or.inr rfl
    · exact Or.inl rfl
  · intro s v k url c i hi
    rw [write_usage, Function.update_apply]
    split_ifs
    · rfl
    · exact hi
  · intro s q t i
    rfl
  · intro s hs hw i
    rw [reachable_usage_char hs]
    unfold indicatorUsage
    rw [if_pos (lt_of_lt_of_le i.isLt hw)]

/-- Witness for C10: fresh 1-slot controller usage is binary, and after one
write (reaching the capacity) the single slot's usage is 1. -/
theorem usage_binary_monotone_witness :
    ((initState 1 1).usage 0 = 0 ∨ (initState 1 1).usage 0 = 1) ∧
      (writeTrace 0 1 tv tv tu tc 1).usage 0 = 1 :=
  ⟨usage_binary_monotone.1 _ Reachable.init 0,
    usage_binary_monotone.2.2.2 _ (writeTrace_reachable 0 1 tv tv tu tc 1)
      (by rw [writeTrace_total_writes]) 0⟩

/-- Claim C1 (amended): in every reachable controller state every row of
the temporal link matrix has at most one nonzero entry, and write, read and
the pure stats snapshot leave this true along every reachable execution —
but not because recording a transition clears the source row (`write`
never clears any entry; see `write_does_not_clear_source_row`): it holds
because the reachable allocation sequence only ever lays an edge into a
row that is empty or already holds exactly that edge. -/
theorem reachable_row_unique {n d : ℕ} {s : DNCState (n + 1) d} (h : Reachable s) :
    ∀ i j1 j2, s.temporal_links i j1 ≠ 0 → s.temporal_links i j2 ≠ 0 → j1 = j2 := by
  rw [reachable_links_char h]
  intro i j1 j2 h1 h2
  unfold linkFun at h1 h2
  rw [ne_eq, ite_eq_right_iff, Classical.not_imp] at h1 h2
  obtain ⟨hc1, -⟩ := h1
  obtain ⟨hc2, -⟩ := h2
  have hj1 := j1.isLt
  have hj2 := j2.isLt
  rw [Fin.ext_iff]
  rcases hc1 with ⟨a1, b1⟩ | ⟨a1, b1, c1⟩ <;> rcases hc2 with ⟨a2, b2⟩ | ⟨a2, b2, c2⟩ <;> omega

/-- Witness for C1 on the reachable state after two writes of a 2-slot
controller, whose link matrix holds the edge `0 → 1`. -/
theorem reachable_row_unique_witness :
    (writeTrace 1 1 tv tv tu tc 2).temporal_links 0 1 ≠ 0 ∧ ((1 : Fin 2) = 1) := by
  have hl : (writeTrace 1 1 tv tv tu tc 2).temporal_links 0 1 ≠ 0 := by
    rw [reachable_links_char (writeTrace_reachable 1 1 tv tv tu tc 2),
      writeTrace_total_writes]
    unfold linkFun
    rw [if_pos (by decide)]
    norm_num
  exact ⟨hl, reachable_row_unique (writeTrace_reachable 1 1 tv tv tu tc 2) 0 1 1 hl hl⟩

/-- Claim C1 counterexample: `write` does not clear the source row before
setting the new edge.  From the state `sC1`, whose row 1 holds the single
edge `1 → 0`, one write allocates slot 2 and sets `1 → 2` while leaving
`1 → 0` in place, so row 1 ends with two nonzero entries. -/
theorem write_does_not_clear_source_row :
    (write sC1 (fun _ => 1) (fun _ => 1) none 1).2.temporal_links 1 0 = 1 ∧
      (write sC1 (fun _ => 1) (fun _ => 1) none 1).2.temporal_links 1 2 = 1 ∧
      sC1.temporal_links 1 0 = 1 ∧
      sC1.temporal_links 1 2 = 0 ∧
      ((0 : Fin 3) ≠ 2) := by
  have harg : argminIdx sC1.usage = (⟨2, by norm_num⟩ : Fin 3) :=
    argminIdx_indicator_lt (by norm_num)
  refine ⟨?_, ?_, ?_, ?_, by decide⟩
  · rw [write_links]
    show (if 0 < sC1.total_writes ∧ (1 : Fin 3) = argminIdx sC1.usage - 1 ∧
          (0 : Fin 3) = argminIdx sC1.usage then (1 : ℝ)
        else sC1.temporal_links 1 0) = 1
    rw [harg, if_neg (by decide)]
    show (if (1 : Fin 3).val = 1 ∧ (0 : Fin 3).val = 0 then (1 : ℝ) else 0) = 1
    rw [if_pos (by decide)]
  · rw [write_links]
    show (if 0 < sC1.total_writes ∧ (1 : Fin 3) = argminIdx sC1.usage - 1 ∧
          (2 : Fin 3) = argminIdx sC1.usage then (1 : ℝ)
        else sC1.temporal_links 1 2) = 1
    rw [harg, if_pos (by decide)]
  · show (if (1 : Fin 3).val = 1 ∧ (0 : Fin 3).val = 0 then (1 : ℝ) else 0) = 1
    rw [if_pos (by decide)]
  · show (if (1 : Fin 3).val = 1 ∧ (2 : Fin 3).val = 0 then (1 : ℝ) else 0) = 0
    rw [if_neg (by decide)]

/-- Claim C2 (amended): on every write except the first, the controller
sets `temporal_links[(idx - 1) mod N][idx] = 1` where `idx` is the newly
allocated slot — the source index is computed arithmetically from `idx`
rather than taken from the slot allocated by the previous write (the two
disagree once allocation stops being sequential, see
`temporal_link_prev_index_counterexample`) — and every other entry is left
unchanged; in particular no existing outgoing edge of the source row is
cleared. -/
theorem write_temporal_link_update {n d : ℕ} (s : DNCState (n + 1) d)
    (v k : Fin d → ℝ) (url : Option String) (c : ℝ) (h : 0 < s.total_writes) :
    (write s v k url c).2.temporal_links = fun i j =>
      if i = (write s v k url c).1 - 1 ∧ j = (write s v k url c).1 then 1
      else s.temporal_links i j := by
  rw [write_links, write_fst]
  funext i j
  simp only [h, true_and]

/-- Witness for C2 at the state after one write of a 2-slot controller,
evaluated at entry `(0, 1)`. -/
theorem write_temporal_link_update_witness :
    (write (writeTrace 1 1 tv tv tu tc 1) (tv 1) (tv 1) (tu 1) (tc 1)).2.temporal_links 0 1
      = (if (0 : Fin 2) = (write (writeTrace 1 1 tv tv tu tc 1) (tv 1) (tv 1) (tu 1) (tc 1)).1 - 1
            ∧ (1 : Fin 2) = (write (writeTrace 1 1 tv tv tu tc 1) (tv 1) (tv 1) (tu 1) (tc 1)).1
          then 1 else (writeTrace 1 1 tv tv tu tc 1).temporal_links 0 1) := by
  have h1 : 0 < (writeTrace 1 1 tv tv tu tc 1).total_writes := by
    rw [writeTrace_total_writes]
    norm_num
  exact congrFun (congrFun (write_temporal_link_update _ _ _ _ _ h1) 0) 1

/-- Claim C2 counterexample: on a 2-slot controller the third and the
fourth writes both allocate slot 0, so the claim requires the fourth write
to record the edge `0 → 0`; the code instead records `1 → 0` (computed as
`(0 - 1) mod 2 = 1`), and entry `(0, 0)` stays zero. -/
theorem temporal_link_prev_index_counterexample :
    (write (writeTrace 1 1 tv tv tu tc 2) (tv 2) (tv 2) (tu 2) (tc 2)).1 = 0 ∧
      (write (writeTrace 1 1 tv tv tu tc 3) (tv 3) (tv 3) (tu 3) (tc 3)).1 = 0 ∧
      (write (writeTrace 1 1 tv tv tu tc 3) (tv 3) (tv 3) (tu 3) (tc 3)).2.temporal_links 0 0
        = 0 ∧
      (write (writeTrace 1 1 tv tv tu tc 3) (tv 3) (tv 3) (tu 3) (tc 3)).2.temporal_links 1 0
        = 1 := by
  have ht3 : (writeTrace 1 1 tv tv tu tc 3).total_writes = 3 :=
    writeTrace_total_writes 1 1 tv tv tu tc 3
  have ha2 : argminIdx (writeTrace 1 1 tv tv tu tc 2).usage = 0 := by
    rw [reachable_usage_char (writeTrace_reachable 1 1 tv tv tu tc 2),
      writeTrace_total_writes]
    exact argminIdx_indicator_ge (by norm_num)
  have ha3 : argminIdx (writeTrace 1 1 tv tv tu tc 3).usage = 0 := by
    rw [reachable_usage_char (writeTrace_reachable 1 1 tv tv tu tc 3),
      writeTrace_total_writes]
    exact argminIdx_indicator_ge (by norm_num)
  have hl3 : (writeTrace 1 1 tv tv tu tc 3).temporal_links = linkFun 2 3 := by
    rw [reachable_links_char (writeTrace_reachable 1 1 tv tv tu tc 3),
      writeTrace_total_writes]
  refine ⟨?_, ?_, ?_, ?_⟩
  · rw [write_fst, ha2]
  · rw [write_fst, ha3]
  · rw [write_links]
    show (if 0 < (writeTrace 1 1 tv tv tu tc 3).total_writes ∧
          (0 : Fin 2) = argminIdx (writeTrace 1 1 tv tv tu tc 3).usage - 1 ∧
          (0 : Fin 2) = argminIdx (writeTrace 1 1 tv tv tu tc 3).usage then (1 : ℝ)
        else (writeTrace 1 1 tv tv tu tc 3).temporal_links 0 0) = 0
    rw [ha3, ht3, if_neg (by decide), hl3]
    unfold linkFun
    rw [if_neg (by decide)]
  · rw [write_links]
    show (if 0 < (writeTrace 1 1 tv tv tu tc 3).total_writes ∧
          (1 : Fin 2) = argminIdx (writeTrace 1 1 tv tv tu tc 3).usage - 1 ∧
          (0 : Fin 2) = argminIdx (writeTrace 1 1 tv tv tu tc 3).usage then (1 : ℝ)
        else (writeTrace 1 1 tv tv tu tc 3).temporal_links 1 0) = 1
    rw [ha3, ht3, if_pos (by decide)]

/-- Claim C3 (amended): `write` performs no validation of `confidence`:
every confidence value, including values outside `[0,1]`, is accepted,
stored verbatim at the allocated slot, and the write mutates state
normally (the write counter always increments); there is no
`InvalidParameter` failure path. -/
theorem write_accepts_any_confidence {n d : ℕ} (s : DNCState (n + 1) d)
    (v k : Fin d → ℝ) (url : Option String) (c : ℝ) :
    (write s v k url c).2.confidence_scores ((write s v k url c).1) = c ∧
      (write s v k url c).2.total_writes = s.total_writes + 1 := by
  constructor
  · rw [write_confidence, write_fst, Function.update_same]
  · rw [write_total_writes]

/-- Claim C3 counterexample: writing with `confidence = 2 ∉ [0,1]` does
not raise and does not leave the state unchanged — the out-of-range value
is stored at the allocated slot and the write counter increments. -/
theorem write_invalid_confidence_mutates :
    (write (initState 1 1) (fun _ => 1) (fun _ => 1) none 2).2.confidence_scores 0 = 2 ∧
      (write (initState 1 1) (fun _ => 1) (fun _ => 1) none 2).2.total_writes = 1 ∧
      (2 : ℝ) ∉ Set.Icc (0 : ℝ) 1 := by
  refine ⟨?_, rfl, by norm_num⟩
  rw [write_confidence]
  have h0 : argminIdx (initState 1 1).usage = 0 := rfl
  rw [h0, Function.update_same]

/-- Claim C9 (amended): `allocate_memory` both selects the write slot (the
least index of minimum usage) and itself mutates the usage vector, setting
the selected slot's usage to `1.0`; it changes no other component, and the
calling `write` performs no usage mutation beyond the one `allocate_memory`
already did. -/
theorem allocate_memory_effect {n d : ℕ} (s : DNCState (n + 1) d)
    (v k : Fin d → ℝ) (url : Option String) (c : ℝ) :
    (allocate_memory s).1 = argminIdx s.usage ∧
      (allocate_memory s).2.usage = Function.update s.usage ((allocate_memory s).1) 1 ∧
      (allocate_memory s).2.memory = s.memory ∧
      (allocate_memory s).2.precedence = s.precedence ∧
      (allocate_memory s).2.temporal_links = s.temporal_links ∧
      (allocate_memory s).2.confidence_scores = s.confidence_scores ∧
      (allocate_memory s).2.total_writes = s.total_writes ∧
      (write s v k url c).2.usage = (allocate_memory s).2.usage :=
  ⟨rfl, rfl, rfl, rfl, rfl, rfl, rfl, rfl⟩

/-- Claim C9 counterexample: `allocate_memory` is not a pure selection
function — on a fresh 1-slot controller it itself flips the selected
slot's usage from `0` to `1`. -/
theorem allocate_memory_mutates_usage :
    (allocate_memory (initState 1 1)).2.usage 0 = 1 ∧ (initState 1 1).usage 0 = 0 := by
  constructor
  · show Function.update (initState 1 1).usage (argminIdx (initState 1 1).usage) 1 0 = 1
    have h0 : argminIdx (initState 1 1).usage = 0 := rfl
    rw [h0, Function.update_same]
  · rfl

end

end CloveDNC
